import Mathlib

/-!
Verification development for the satisfactory-file-parser repository.

The facade (`Parser.ParseSave`, `Parser.WriteSave`, `Parser.JSONStringifyModified`),
the `FICFrameRange` struct codec and the `vec2` struct codec are embedded from the
source files.  The byte-cursor primitives (`BinaryReadable` / `ByteWriter`) and the
`SaveReader` / `SaveWriter` component internals are not part of the provided source
tree; where needed they are modelled from the specification, and each such
definition carries a doc comment saying so.

Bytes are modelled as natural numbers below 256; byte sequences as `List Nat`.
IEEE-754 float and double values are modelled by their bit patterns (a natural
number below 2^32 resp. 2^64), following the specification's design note that the
codec reads and writes floats as their raw 4- or 8-byte bit pattern.
-/

namespace SatisfactoryParser

/-- Byte sequences: lists of naturals, legal when every entry is below 256. -/
abbrev Bytes := List Nat

/-- Little-endian value of a byte list (first byte is least significant). -/
def leVal : Bytes → Nat
  | [] => 0
  | b :: bs => b + 256 * leVal bs

/-- Little-endian byte list of a value, with a fixed width in bytes. -/
def leBytes : Nat → Nat → Bytes
  | 0, _ => []
  | w + 1, v => v % 256 :: leBytes w (v / 256)

/-- Modelled from the spec: the forward-seeking read cursor of the ByteCursor
component (`BinaryReadable`), which is not among the provided source files. -/
structure Reader where
  bytes : Bytes
  pos : Nat
deriving DecidableEq

/-- Modelled from the spec: reading a fixed-size byte slice off the cursor;
fails past the end of the stream. -/
def Reader.readN (r : Reader) (n : Nat) : Option (Bytes × Reader) :=
  if r.pos + n ≤ r.bytes.length then
    some ((r.bytes.drop r.pos).take n, ⟨r.bytes, r.pos + n⟩)
  else none

/-- Modelled from the spec: `readDouble` of the byte cursor — 8 bytes, little
endian, returned as the 64-bit IEEE-754 bit pattern. -/
def readDouble (r : Reader) : Option (Nat × Reader) :=
  (r.readN 8).map (fun p => (leVal p.1, p.2))

/-- Modelled from the spec: `readFloat32` of the byte cursor — 4 bytes, little
endian, returned as the 32-bit IEEE-754 bit pattern. -/
def readFloat32 (r : Reader) : Option (Nat × Reader) :=
  (r.readN 4).map (fun p => (leVal p.1, p.2))

/-- Two's-complement reinterpretation of an unsigned 64-bit value. -/
def toSigned64 (u : Nat) : Int :=
  if u < 9223372036854775808 then (u : Int) else (u : Int) - 18446744073709551616

/-- Modelled from the spec: `readInt64` of the byte cursor — 8 bytes, little
endian, signed (two's complement). -/
def readInt64 (r : Reader) : Option (Int × Reader) :=
  (r.readN 8).map (fun p => (toSigned64 (leVal p.1), p.2))

/-- Modelled from the spec: `writeDouble` of the byte writer — appends the 8
little-endian bytes of a 64-bit bit pattern. -/
def writeDouble (v : Nat) : Bytes := leBytes 8 v

/-- Modelled from the spec: `writeFloat32` of the byte writer — appends the 4
little-endian bytes of a 32-bit bit pattern. -/
def writeFloat32 (v : Nat) : Bytes := leBytes 4 v

/-- Modelled from the spec: `writeInt64` of the byte writer — appends the 8
little-endian bytes of the two's complement of a signed value. -/
def writeInt64 (i : Int) : Bytes := leBytes 8 (i % 18446744073709551616).toNat

/-- Little-endian decimal digits of a natural number, least significant first;
`fuel` bounds the recursion and any `fuel ≥ n` is exact. -/
def decDigitsRev : Nat → Nat → List Nat
  | 0, _ => []
  | fuel + 1, n => if n = 0 then [] else n % 10 :: decDigitsRev fuel (n / 10)

/-- Value of a little-endian decimal digit list. -/
def decVal : List Nat → Nat
  | [] => 0
  | d :: ds => d + 10 * decVal ds

/-- Character of a single decimal digit. -/
def digitChar (d : Nat) : Char := Char.ofNat (48 + d)

/-- Decimal character list of a natural number, most significant first. -/
def natDecChars (n : Nat) : List Char :=
  if n = 0 then ['0'] else (decDigitsRev n n).reverse.map digitChar

/-- Models JavaScript `BigInt.prototype.toString` (radix 10): an optional minus
sign followed by the decimal digits, no leading zeros, `0` for zero. -/
def bigintToString (i : Int) : String :=
  if i < 0 then "-" ++ String.mk (natDecChars i.natAbs) else String.mk (natDecChars i.toNat)

/-- Parses a nonempty all-digit character list as a natural number. -/
def parseNatDigits : List Char → Option Nat
  | [] => none
  | cs => if cs.all Char.isDigit then
      some (cs.foldl (fun a c => 10 * a + (c.toNat - 48)) 0)
    else none

/-- Sign-then-digits parse over a character list; helper for `stringToBigInt`. -/
def signedDigitsToInt : List Char → Option Int
  | [] => none
  | c :: cs =>
    if c = '-' then (parseNatDigits cs).map (fun n => -(n : Int))
    else (parseNatDigits (c :: cs)).map (fun n => (n : Int))

/-- Models the JavaScript `BigInt(string)` conversion on sign-plus-digits
strings as produced by `bigintToString`: optional minus sign, then decimal
digits; anything malformed fails (JavaScript raises a SyntaxError). -/
def stringToBigInt (s : String) : Option Int :=
  signedDigitsToInt s.data

/-- JavaScript numbers as the stringifier claims need them: negative zero is a
value distinct from the integer zero, other numbers are integral doubles
(rendered by JSON in plain decimal within the safe range). -/
inductive JsNumber where
  | negZero
  | int (i : Int)
deriving DecidableEq

/-- JavaScript values that `JSON.stringify` accepts: the scalar kinds the
replacer of `Parser.JSONStringifyModified` inspects, plus arrays and objects. -/
inductive JsValue where
  | null
  | boolean (b : Bool)
  | num (x : JsNumber)
  | bigint (i : Int)
  | str (s : String)
  | arr (elems : List JsValue)
  | obj (fields : List (String × JsValue))

/-- Hexadecimal digit character (lowercase), for JSON control-character escapes. -/
def hexDigitChar (n : Nat) : Char :=
  if n < 10 then Char.ofNat (48 + n) else Char.ofNat (87 + n)

/-- JSON escape of one character, per the `JSON.stringify` quoting rules. -/
def escapeJsonChar (c : Char) : List Char :=
  if c = '"' then ['\\', '"']
  else if c = '\\' then ['\\', '\\']
  else if c = Char.ofNat 8 then ['\\', 'b']
  else if c = Char.ofNat 9 then ['\\', 't']
  else if c = Char.ofNat 10 then ['\\', 'n']
  else if c = Char.ofNat 12 then ['\\', 'f']
  else if c = Char.ofNat 13 then ['\\', 'r']
  else if c.toNat < 32 then
    ['\\', 'u', '0', '0', hexDigitChar (c.toNat / 16), hexDigitChar (c.toNat % 16)]
  else [c]

/-- JSON string quoting: surrounding double quotes plus per-character escapes. -/
def jsonQuote (s : String) : String :=
  String.mk ('"' :: s.data.foldr (fun c acc => escapeJsonChar c ++ acc) ['"'])

/-- Decimal rendering of a JavaScript number; negative zero renders as `0`
(that case is unreachable under the replacer, which intercepts it first). -/
def jsNumberRepr : JsNumber → String
  | .negZero => "0"
  | .int i => bigintToString i

mutual

/-- Embeds `Parser.JSONStringifyModified` at its default indent `0`: the JSON
serialization of a value with the source's replacer applied at every node —
a bigint becomes its decimal string, a number that is `-0` (detected in the
source by `value === 0 && 1 / value < 0`) becomes the string `-0`, and every
other value passes through unchanged. -/
def stringifyValue : JsValue → String
  | .bigint i => jsonQuote (bigintToString i)
  | .num .negZero => jsonQuote "-0"
  | .num (.int i) => jsNumberRepr (.int i)
  | .null => "null"
  | .boolean b => if b then "true" else "false"
  | .str s => jsonQuote s
  | .arr es => "[" ++ stringifyElems es ++ "]"
  | .obj fs => "\x7b" ++ stringifyFields fs ++ "\x7d"

/-- Comma-joined serialization of array elements. -/
def stringifyElems : List JsValue → String
  | [] => ""
  | [v] => stringifyValue v
  | v :: w :: rest => stringifyValue v ++ "," ++ stringifyElems (w :: rest)

/-- Comma-joined serialization of object fields (quoted key, colon, value). -/
def stringifyFields : List (String × JsValue) → String
  | [] => ""
  | [(k, v)] => jsonQuote k ++ ":" ++ stringifyValue v
  | (k, v) :: f :: rest =>
    jsonQuote k ++ ":" ++ stringifyValue v ++ "," ++ stringifyFields (f :: rest)

end

/-- Character-list version of `String.startsWith`. -/
def charsStartWith : List Char → List Char → Bool
  | [], _ => true
  | _ :: _, [] => false
  | p :: ps, c :: cs => p == c && charsStartWith ps cs

/-- Whether `pat` occurs as a contiguous run inside the second list. -/
def charsContain (pat : List Char) : List Char → Bool
  | [] => charsStartWith pat []
  | c :: cs => charsStartWith pat (c :: cs) || charsContain pat cs

/-- Whether the string `pat` occurs as a substring of `s`. -/
def strContains (s pat : String) : Bool := charsContain pat.data s.data

/-- Whether the character list contains a dotted-version fragment: a decimal
digit, a dot, and a decimal digit in immediate succession.  Every package
version string such as `0.0.34` or `0.3.7` contains one. -/
def hasVersionPattern : List Char → Bool
  | a :: b :: c :: rest => (a.isDigit && b == '.' && c.isDigit) || hasVersionPattern (b :: c :: rest)
  | _ => false

/-- Embeds the `FICFrameRange` type from the source: two signed 64-bit frame
numbers carried as decimal strings (`begin` and `end` in the source; renamed
here because `end` is reserved). -/
structure FICFrameRange where
  rangeBegin : String
  rangeEnd : String
deriving DecidableEq

namespace FICFrameRange

/-- Embeds `FICFrameRange.Parse`: reads two int64 values (begin then end) off
the cursor and stores each as its decimal string. -/
def Parse (r : Reader) : Option (FICFrameRange × Reader) :=
  match readInt64 r with
  | none => none
  | some (b, r1) =>
    match readInt64 r1 with
    | none => none
    | some (e, r2) => some ({ rangeBegin := bigintToString b, rangeEnd := bigintToString e }, r2)

/-- Embeds `FICFrameRange.Serialize`: converts both decimal strings back with
`BigInt(...)` and writes them as int64, begin then end.  Fails when a string
is not numeric, where the source would raise. -/
def Serialize (v : FICFrameRange) : Option Bytes :=
  match stringToBigInt v.rangeBegin, stringToBigInt v.rangeEnd with
  | some b, some e => some (writeInt64 b ++ writeInt64 e)
  | _, _ => none

end FICFrameRange

/-- Embeds the `vec2` type from the source.  The `x` and `y` components are
JavaScript numbers; following the specification's design note they are
modelled by their IEEE-754 bit patterns. -/
structure vec2 where
  x : Nat
  y : Nat
deriving DecidableEq

namespace vec2

/-- Embeds `vec2.Parse`: reads `x` then `y` as 8-byte little-endian doubles. -/
def Parse (r : Reader) : Option (vec2 × Reader) :=
  match readDouble r with
  | none => none
  | some (xv, r1) =>
    match readDouble r1 with
    | none => none
    | some (yv, r2) => some ({ x := xv, y := yv }, r2)

/-- Embeds `vec2.Serialize`: writes `x` then `y` as 8-byte doubles. -/
def Serialize (v : vec2) : Bytes := writeDouble v.x ++ writeDouble v.y

/-- Embeds `vec2.ParseF`: reads `x` then `y` as 4-byte little-endian floats. -/
def ParseF (r : Reader) : Option (vec2 × Reader) :=
  match readFloat32 r with
  | none => none
  | some (xv, r1) =>
    match readFloat32 r1 with
    | none => none
    | some (yv, r2) => some ({ x := xv, y := yv }, r2)

/-- Embeds `vec2.SerializeF`: writes `x` then `y` as 4-byte floats. -/
def SerializeF (v : vec2) : Bytes := writeFloat32 v.x ++ writeFloat32 v.y

end vec2

/-- Modelled from the spec: the save header fields the facade consults
(`saveVersion`, `saveHeaderType` for the version guard, `buildVersion` which
`Parser.WriteSave` passes to the level writer); the header codec itself is not
among the provided source files. -/
structure SaveHeader where
  saveVersion : Int
  saveHeaderType : Int
  buildVersion : Int
deriving DecidableEq

/-- Embeds the `RoughSaveVersion` string union returned by
`SaveReader.GetRoughSaveVersion` in the source. -/
inductive RoughSaveVersion where
  | ltU6
  | u6u7
  | u8
  | current
deriving DecidableEq

/-- Modelled from the spec: algorithm id and maximum uncompressed chunk size
captured from the first chunk header at decode time. -/
structure CompressionInfo where
  compressionAlgorithm : Nat
  maxUncompressedChunkContentSize : Nat
deriving DecidableEq

/-- Failure outcomes of the facade: the `UnsupportedVersionError` raised by
`Parser.ParseSave` (with its message), or a read failure from a component. -/
inductive ParserError where
  | unsupportedVersion (message : String)
  | readFailure
deriving DecidableEq

/-- Embeds the `SatisfactorySave` object as `Parser.ParseSave` populates it:
name and header at construction, then compression info, body hash, grids and
levels assigned in decode order. -/
structure SatisfactorySave (G L : Type) where
  name : String
  header : SaveHeader
  compressionInfo : Option CompressionInfo
  gridHash : Bytes
  grids : G
  levels : L
deriving DecidableEq

/-- Modelled from the spec: the `SaveReader` / `SaveWriter` component
operations that `Parser.ParseSave` and `Parser.WriteSave` orchestrate but
whose bodies are not among the provided source files.  Each reader returns
the decoded value and the unconsumed remainder of its input; each writer
returns the bytes it appends.  `deflateChunks` is the pluggable compression
collaborator used by `generateChunks`; grids and levels payloads are the type
parameters `G` and `L`, opaque to the facade. -/
structure SaveComponents (G L : Type) where
  readHeader : Bytes → Option (SaveHeader × Bytes)
  getRoughSaveVersion : Int → Int → RoughSaveVersion
  inflateChunks : Bytes → Option (CompressionInfo × Bytes)
  readGrids : Bytes → Option (G × Bytes)
  readLevels : Bytes → SaveHeader → Option (L × Bytes)
  writeHeader : SaveHeader → Bytes
  writeGrids : G → Bytes
  writeLevels : L → Int → Bytes
  deflateChunks : CompressionInfo → Bytes → List Bytes

/-- Modelled from the spec: `SaveReader.readSaveBodyHash` reads the 32-byte
body validation hash off the front of the decompressed body. -/
def readSaveBodyHash (bs : Bytes) : Option (Bytes × Bytes) :=
  if 32 ≤ bs.length then some (bs.take 32, bs.drop 32) else none

/-- Modelled from the spec: `SaveWriter.WriteSaveBodyHash` writes the 32 hash
bytes back verbatim. -/
def writeSaveBodyHash (h : Bytes) : Bytes := h

/-- Presence flags for the optional callbacks accepted by `Parser.ParseSave`;
the effect of the body callback is recorded as a parse event. -/
structure ParseOptions where
  onDecompressedSaveBody : Bool
  onProgressCallback : Bool
deriving DecidableEq

/-- Observable steps of `Parser.ParseSave`, recorded in execution order. -/
inductive ParseEvent (G L : Type) where
  | headerRead (header : SaveHeader)
  | versionChecked (rough : RoughSaveVersion)
  | chunksInflated (ci : CompressionInfo) (body : Bytes)
  | bodyCallback (body : Bytes)
  | hashRead (hash : Bytes)
  | gridsRead (grids : G)
  | levelsRead (levels : L)
deriving DecidableEq

/-- Error message of the source for saves below U6. -/
def msgLtU6 : String := "Game Version < U6 is not supported."

/-- Error message of the source for U6/U7 saves. -/
def msgU6U7 : String := "Game Version U6/U7 is not supported in this package version. Consider downgrading to the latest package version supporting it, which is 0.0.34"

/-- Error message of the source for U8 saves. -/
def msgU8 : String := "Game Version U8 is not supported in this package version. Consider downgrading to the latest package version supporting it, which is 0.3.7"

namespace Parser

/-- Embeds `Parser.JSONStringifyModified` at its default indent `0`. -/
def JSONStringifyModified (obj : JsValue) : String := stringifyValue obj

/-- Embeds `Parser.ParseSave` over the component model: read the header,
classify the version and reject the three unsupported classes with the
source's messages, inflate the chunks, fire the decompressed-body callback
when one was provided, read the 32-byte body hash, the grids and the levels,
and populate the save.  Alongside the result it records the steps taken, in
order, as parse events. -/
def ParseSave {G L : Type} (c : SaveComponents G L) (name : String) (bytes : Bytes)
    (opts : ParseOptions) :
    List (ParseEvent G L) × Except ParserError (SatisfactorySave G L) :=
  match c.readHeader bytes with
  | none => ([], .error .readFailure)
  | some (header, afterHeader) =>
    let rough := c.getRoughSaveVersion header.saveVersion header.saveHeaderType
    let evs := [ParseEvent.headerRead header, ParseEvent.versionChecked rough]
    match rough with
    | .ltU6 => (evs, .error (.unsupportedVersion msgLtU6))
    | .u6u7 => (evs, .error (.unsupportedVersion msgU6U7))
    | .u8 => (evs, .error (.unsupportedVersion msgU8))
    | .current =>
      match c.inflateChunks afterHeader with
      | none => (evs, .error .readFailure)
      | some (ci, body) =>
        let evs := evs ++ [ParseEvent.chunksInflated ci body]
        let evs := if opts.onDecompressedSaveBody then evs ++ [ParseEvent.bodyCallback body]
          else evs
        match readSaveBodyHash body with
        | none => (evs, .error .readFailure)
        | some (hsh, afterHash) =>
          let evs := evs ++ [ParseEvent.hashRead hsh]
          match c.readGrids afterHash with
          | none => (evs, .error .readFailure)
          | some (g, afterGrids) =>
            let evs := evs ++ [ParseEvent.gridsRead g]
            match c.readLevels afterGrids header with
            | none => (evs, .error .readFailure)
            | some (l, _afterLevels) =>
              (evs ++ [ParseEvent.levelsRead l],
               .ok { name := name, header := header, compressionInfo := some ci,
                     gridHash := hsh, grids := g, levels := l })

/-- Embeds `Parser.WriteSave` over the component model: write the header,
remember the position after it, write the body hash, the grids and the levels
(passing `buildVersion`), then generate chunks from the body part of the
buffer with the save's compression info.  Returns the emitted byte stream —
the uncompressed header followed by the compressed chunks, in callback
emission order — and the chunk summary, modelled as the chunk byte sizes.
Fails when the save carries no compression info (the source dereferences it
unconditionally). -/
def WriteSave {G L : Type} (c : SaveComponents G L) (save : SatisfactorySave G L) :
    Option (Bytes × List Nat) :=
  match save.compressionInfo with
  | none => none
  | some ci =>
    let headerBuf := c.writeHeader save.header
    let posAfterHeader := headerBuf.length
    let buffer := headerBuf ++ writeSaveBodyHash save.gridHash ++ c.writeGrids save.grids
        ++ c.writeLevels save.levels save.header.buildVersion
    let headerBytes := buffer.take posAfterHeader
    let body := buffer.drop posAfterHeader
    let chunks := c.deflateChunks ci body
    some (headerBytes ++ chunks.flatten, chunks.map List.length)

end Parser

/-- Modelled from the spec: a concrete instantiation of the collaborator
components — a three-byte header of the three facade-relevant fields, identity
compression in a single chunk, a two-byte grids blob and a levels blob taking
the whole remainder — used to exercise the facade theorems on concrete
inputs.  The spec fixes no numeric version thresholds, so the classifier's
cut-offs here are illustrative. -/
def trivComponents : SaveComponents Bytes Bytes where
  readHeader := fun bs =>
    match bs with
    | a :: b :: c :: rest =>
      some ({ saveVersion := (a : Int), saveHeaderType := (b : Int), buildVersion := (c : Int) },
        rest)
    | _ => none
  getRoughSaveVersion := fun sv _ =>
    if sv < 6 then .ltU6 else if sv < 8 then .u6u7 else if sv < 9 then .u8 else .current
  inflateChunks := fun bs =>
    some ({ compressionAlgorithm := 3, maxUncompressedChunkContentSize := 131072 }, bs)
  readGrids := fun bs => if 2 ≤ bs.length then some (bs.take 2, bs.drop 2) else none
  readLevels := fun bs _ => some (bs, [])
  writeHeader := fun h => [h.saveVersion.toNat, h.saveHeaderType.toNat, h.buildVersion.toNat]
  writeGrids := fun g => g
  writeLevels := fun l _ => l
  deflateChunks := fun _ body => [body]

/-- Decompressed body of the demo save: 32 hash bytes, a 2-byte grids blob and
a 3-byte levels blob. -/
def demoBody : Bytes := List.replicate 32 0 ++ [1, 2] ++ [5, 6, 7]

/-- Byte stream of the demo save: 3 header bytes followed by the body (the
demo components use identity compression in a single chunk). -/
def demoBytes : Bytes := [10, 3, 7] ++ demoBody

end SatisfactoryParser

namespace SatisfactoryParser

lemma leBytes_leVal (L : Bytes) (hb : ∀ b ∈ L, b < 256) :
    leBytes L.length (leVal L) = L := by
  induction L with
  | nil => rfl
  | cons b bs ih =>
    have hb0 : b < 256 := hb b (List.mem_cons_self _ _)
    have hrec : ∀ x ∈ bs, x < 256 := fun x hx => hb x (List.mem_cons_of_mem _ hx)
    have h1 : (b + 256 * leVal bs) % 256 = b := by omega
    have h2 : (b + 256 * leVal bs) / 256 = leVal bs := by omega
    simp [leBytes, leVal, h1, h2, ih hrec]

lemma leVal_lt (L : Bytes) (hb : ∀ b ∈ L, b < 256) :
    leVal L < 256 ^ L.length := by
  induction L with
  | nil => simp [leVal]
  | cons b bs ih =>
    have hb0 : b < 256 := hb b (List.mem_cons_self _ _)
    have hrec := ih (fun x hx => hb x (List.mem_cons_of_mem _ hx))
    have : (256 : Nat) ^ (b :: bs).length = 256 * 256 ^ bs.length := by
      simp [List.length_cons, pow_succ]; ring
    rw [this]
    simp only [leVal]
    omega

lemma decDigitsRev_lt (fuel n : Nat) : ∀ d ∈ decDigitsRev fuel n, d < 10 := by
  induction fuel generalizing n with
  | zero => simp [decDigitsRev]
  | succ f ih =>
    intro d hd
    by_cases h0 : n = 0
    · simp [decDigitsRev, h0] at hd
    · simp only [decDigitsRev, h0, if_false] at hd
      rcases List.mem_cons.mp hd with h | h
      · omega
      · exact ih _ d h

lemma decVal_decDigitsRev (fuel n : Nat) (h : n ≤ fuel) :
    decVal (decDigitsRev fuel n) = n := by
  induction fuel generalizing n with
  | zero => interval_cases n; rfl
  | succ f ih =>
    by_cases h0 : n = 0
    · simp [decDigitsRev, h0, decVal]
    · have hstep : n / 10 ≤ f := by
        have := Nat.div_lt_self (Nat.pos_of_ne_zero h0) (by norm_num : (1 : Nat) < 10)
        omega
      simp only [decDigitsRev, h0, if_false, decVal, ih _ hstep]
      omega

lemma foldl_reverse_decVal (L : List Nat) (a : Nat) :
    List.foldl (fun a d => 10 * a + d) a L.reverse = a * 10 ^ L.length + decVal L := by
  induction L generalizing a with
  | nil => simp [decVal]
  | cons d ds ih =>
    simp only [List.reverse_cons, List.foldl_append, List.foldl_cons, List.foldl_nil,
      ih, decVal, List.length_cons, pow_succ]
    ring

lemma digitChar_toNat (d : Nat) (h : d < 10) : (digitChar d).toNat = 48 + d := by
  interval_cases d <;> decide

lemma digitChar_isDigit (d : Nat) (h : d < 10) : (digitChar d).isDigit = true := by
  interval_cases d <;> decide

lemma isDigit_ne_dash (c : Char) (h : c.isDigit = true) : ¬ c = '-' := by
  intro he; subst he; simp at h

lemma natDecChars_all_digits (n : Nat) : (natDecChars n).all Char.isDigit = true := by
  by_cases h0 : n = 0
  · simp [natDecChars, h0]
  · simp only [natDecChars, h0, if_false, List.all_eq_true]
    intro c hc
    rcases List.mem_map.mp hc with ⟨d, hd, rfl⟩
    exact digitChar_isDigit d (decDigitsRev_lt n n d (List.mem_reverse.mp hd))

lemma natDecChars_ne_nil (n : Nat) : natDecChars n ≠ [] := by
  by_cases h0 : n = 0
  · simp [natDecChars, h0]
  · simp only [natDecChars, h0, if_false]
    intro hcon
    have h1 : decDigitsRev n n = [] := by
      have := congrArg List.length hcon
      simp at this
      cases hdd : decDigitsRev n n with
      | nil => rfl
      | cons x xs => rw [hdd] at this; simp at this
    have hn : 0 < n := Nat.pos_of_ne_zero h0
    cases n with
    | zero => omega
    | succ m => simp [decDigitsRev] at h1

lemma foldl_digitChars (L : List Nat) (hL : ∀ d ∈ L, d < 10) (a : Nat) :
    List.foldl (fun a c => 10 * a + (c.toNat - 48)) a (L.map digitChar)
      = List.foldl (fun a d => 10 * a + d) a L := by
  induction L generalizing a with
  | nil => rfl
  | cons d ds ih =>
    have hd : d < 10 := hL d (List.mem_cons_self _ _)
    simp only [List.map_cons, List.foldl_cons, digitChar_toNat d hd]
    rw [ih (fun x hx => hL x (List.mem_cons_of_mem _ hx))]
    congr 1
    omega

lemma parseNatDigits_natDecChars (n : Nat) : parseNatDigits (natDecChars n) = some n := by
  by_cases h0 : n = 0
  · subst h0; decide
  · cases hL : natDecChars n with
    | nil => exact absurd hL (natDecChars_ne_nil n)
    | cons c cs =>
      have hall : (c :: cs).all Char.isDigit = true := by
        rw [← hL]; exact natDecChars_all_digits n
      simp only [parseNatDigits, hall, if_true]
      congr 1
      have hchars : c :: cs = (decDigitsRev n n).reverse.map digitChar := by
        rw [← hL]; simp [natDecChars, h0]
      rw [hchars]
      have hdig : ∀ d ∈ (decDigitsRev n n).reverse, d < 10 :=
        fun d hd => decDigitsRev_lt n n d (List.mem_reverse.mp hd)
      rw [foldl_digitChars _ hdig, foldl_reverse_decVal, decVal_decDigitsRev n n le_rfl]
      omega

lemma natDecChars_head_not_dash (n : Nat) (c : Char) (cs : List Char)
    (h : natDecChars n = c :: cs) : ¬ c = '-' := by
  apply isDigit_ne_dash
  have := natDecChars_all_digits n
  rw [h, List.all_cons] at this
  exact (Bool.and_eq_true _ _).mp this |>.1

lemma stringToBigInt_bigintToString (i : Int) :
    stringToBigInt (bigintToString i) = some i := by
  by_cases hneg : i < 0
  · have hdata : (bigintToString i).data = '-' :: natDecChars i.natAbs := by
      simp [bigintToString, hneg, String.data_append]
    rw [stringToBigInt, hdata]
    simp [signedDigitsToInt, parseNatDigits_natDecChars, abs_of_neg hneg]
  · have hdata : (bigintToString i).data = natDecChars i.toNat := by
      simp [bigintToString, hneg]
    rw [stringToBigInt, hdata]
    cases hL : natDecChars i.toNat with
    | nil => exact absurd hL (natDecChars_ne_nil _)
    | cons c cs =>
      have hnd : ¬ c = '-' := natDecChars_head_not_dash _ c cs hL
      simp [signedDigitsToInt, hnd, ← hL, parseNatDigits_natDecChars]
      omega

lemma foldr_escape_plain (L : List Char) (h : ∀ c ∈ L, escapeJsonChar c = [c]) :
    L.foldr (fun c acc => escapeJsonChar c ++ acc) ['"'] = L ++ ['"'] := by
  induction L with
  | nil => rfl
  | cons c cs ih =>
    simp only [List.foldr_cons, h c (List.mem_cons_self _ _),
      ih (fun x hx => h x (List.mem_cons_of_mem _ hx)), List.cons_append, List.nil_append]

lemma jsonQuote_plain (s : String) (h : ∀ c ∈ s.data, escapeJsonChar c = [c]) :
    jsonQuote s = "\"" ++ s ++ "\"" := by
  apply String.ext
  show ('"' :: s.data.foldr (fun c acc => escapeJsonChar c ++ acc) ['"'])
      = ("\"" ++ s ++ "\"").data
  rw [foldr_escape_plain s.data h]
  simp [String.data_append]

lemma escape_digitChar (d : Nat) (hd : d < 10) : escapeJsonChar (digitChar d) = [digitChar d] := by
  interval_cases d <;> decide

lemma natDecChars_plain (n : Nat) : ∀ c ∈ natDecChars n, escapeJsonChar c = [c] := by
  by_cases h0 : n = 0
  · subst h0; intro c hc; simp [natDecChars] at hc; subst hc; decide
  · intro c hc
    simp only [natDecChars, h0, if_false] at hc
    rcases List.mem_map.mp hc with ⟨d, hd, rfl⟩
    exact escape_digitChar d (decDigitsRev_lt n n d (List.mem_reverse.mp hd))

lemma bigintToString_plain (i : Int) : ∀ c ∈ (bigintToString i).data, escapeJsonChar c = [c] := by
  intro c hc
  by_cases hneg : i < 0
  · simp only [bigintToString, hneg, if_true, String.data_append] at hc
    rcases List.mem_append.mp hc with hdash | hrest
    · simp at hdash; subst hdash; decide
    · exact natDecChars_plain _ c hrest
  · simp only [bigintToString, hneg, if_false] at hc
    exact natDecChars_plain _ c hc

lemma jsonQuote_bigintToString (i : Int) :
    jsonQuote (bigintToString i) = "\"" ++ bigintToString i ++ "\"" :=
  jsonQuote_plain _ (bigintToString_plain i)

end SatisfactoryParser

namespace SatisfactoryParser

/-- C4: the stringifier renders every 64-bit integer carried as a bigint as its
exact decimal digit string (quoted, since the replacer turns the bigint into a
string) — `stringToBigInt` recovers the value exactly, so nothing is lost to
floating-point rounding. -/
theorem stringify_bigint_exact (i : Int)
    (hlo : -9223372036854775808 ≤ i) (hhi : i < 9223372036854775808) :
    Parser.JSONStringifyModified (JsValue.bigint i) = "\"" ++ bigintToString i ++ "\""
      ∧ stringToBigInt (bigintToString i) = some i := by
  constructor
  · rw [Parser.JSONStringifyModified, stringifyValue, jsonQuote_bigintToString]
  · exact stringToBigInt_bigintToString i

/-- Witness for C4 at the largest signed 64-bit value. -/
theorem stringify_bigint_exact_witness :
    Parser.JSONStringifyModified (JsValue.bigint 9223372036854775807)
        = "\"" ++ bigintToString 9223372036854775807 ++ "\""
      ∧ stringToBigInt (bigintToString 9223372036854775807) = some 9223372036854775807 :=
  stringify_bigint_exact 9223372036854775807 (by decide) (by decide)

/-- C5: the stringifier emits the literal `-0` (as the JSON string produced by
the replacer) for a number that is negative zero, while positive zero is
emitted as the plain number `0`. -/
theorem stringify_negative_zero :
    Parser.JSONStringifyModified (JsValue.num JsNumber.negZero) = "\"-0\""
      ∧ strContains (Parser.JSONStringifyModified (JsValue.num JsNumber.negZero)) "-0" = true
      ∧ Parser.JSONStringifyModified (JsValue.num (JsNumber.int 0)) = "0" := by
  have h1 : Parser.JSONStringifyModified (JsValue.num JsNumber.negZero) = "\"-0\"" := by
    rw [Parser.JSONStringifyModified, stringifyValue]
    decide
  have h3 : Parser.JSONStringifyModified (JsValue.num (JsNumber.int 0)) = "0" := by
    rw [Parser.JSONStringifyModified, stringifyValue]
    decide
  refine ⟨h1, ?_, h3⟩
  rw [h1]
  decide

/-- C10: the stringifier is not injective — a bigint and the string of its
decimal digits produce identical output, and negative zero produces the same
output as the string `-0`, although the input values differ. -/
theorem stringify_not_injective :
    Parser.JSONStringifyModified (JsValue.bigint 1) = Parser.JSONStringifyModified (JsValue.str "1")
      ∧ JsValue.bigint 1 ≠ JsValue.str "1"
      ∧ Parser.JSONStringifyModified (JsValue.num JsNumber.negZero)
          = Parser.JSONStringifyModified (JsValue.str "-0")
      ∧ JsValue.num JsNumber.negZero ≠ JsValue.str "-0" := by
  refine ⟨?_, fun h => JsValue.noConfusion h, ?_, fun h => JsValue.noConfusion h⟩
  · simp only [Parser.JSONStringifyModified, stringifyValue]
    decide
  · simp only [Parser.JSONStringifyModified, stringifyValue]

lemma writeInt64_leVal (L : Bytes) (hlen : L.length = 8) (hb : ∀ b ∈ L, b < 256) :
    writeInt64 (toSigned64 (leVal L)) = L := by
  have hu : leVal L < 18446744073709551616 := by
    have h := leVal_lt L hb
    rw [hlen] at h
    norm_num at h
    exact h
  have hmod : ((toSigned64 (leVal L)) % 18446744073709551616).toNat = leVal L := by
    unfold toSigned64
    by_cases h : leVal L < 9223372036854775808
    · rw [if_pos h]; omega
    · rw [if_neg h]; omega
  rw [writeInt64, hmod, ← hlen, leBytes_leVal L hb]

lemma readN_at (bs : Bytes) (p n : Nat) (h : p + n ≤ bs.length) :
    Reader.readN ⟨bs, p⟩ n = some ((bs.drop p).take n, ⟨bs, p + n⟩) := by
  simp [Reader.readN, h]

lemma leBytes_leVal_of_length (L : Bytes) (n : Nat) (hlen : L.length = n)
    (hb : ∀ b ∈ L, b < 256) : leBytes n (leVal L) = L := by
  have h := leBytes_leVal L hb
  rw [hlen] at h
  exact h

/-- C7: `FICFrameRange.Serialize` inverts `FICFrameRange.Parse` — on any 16
legal input bytes, Parse reads begin then end as little-endian signed int64
values represented as their exact decimal strings, consuming all 16 bytes, and
Serialize reproduces the input byte-for-byte. -/
theorem ficFrameRange_serialize_parse_roundtrip (bs : Bytes) (hlen : bs.length = 16)
    (hb : ∀ b ∈ bs, b < 256) :
    ∃ fr r1,
      FICFrameRange.Parse ⟨bs, 0⟩ = some (fr, r1)
        ∧ r1 = ⟨bs, 16⟩
        ∧ fr.rangeBegin = bigintToString (toSigned64 (leVal (bs.take 8)))
        ∧ fr.rangeEnd = bigintToString (toSigned64 (leVal (bs.drop 8)))
        ∧ FICFrameRange.Serialize fr = some bs := by
  have hb1 : ∀ b ∈ bs.take 8, b < 256 := fun b h => hb b ((List.take_sublist 8 bs).subset h)
  have hb2 : ∀ b ∈ bs.drop 8, b < 256 := fun b h => hb b ((List.drop_sublist 8 bs).subset h)
  have hl1 : (bs.take 8).length = 8 := by rw [List.length_take]; omega
  have hl2 : (bs.drop 8).length = 8 := by rw [List.length_drop]; omega
  have hdt : (bs.drop 8).take 8 = bs.drop 8 := List.take_of_length_le (by omega)
  have e1 : Reader.readN ⟨bs, 0⟩ 8 = some (bs.take 8, ⟨bs, 8⟩) := by
    have h := readN_at bs 0 8 (by omega)
    simpa using h
  have e2 : Reader.readN ⟨bs, 8⟩ 8 = some (bs.drop 8, ⟨bs, 16⟩) := by
    have h := readN_at bs 8 8 (by omega)
    simpa [hdt] using h
  refine ⟨⟨bigintToString (toSigned64 (leVal (bs.take 8))),
    bigintToString (toSigned64 (leVal (bs.drop 8)))⟩, ⟨bs, 16⟩, ?_, rfl, rfl, rfl, ?_⟩
  · simp [FICFrameRange.Parse, readInt64, e1, e2]
  · simp only [FICFrameRange.Serialize, stringToBigInt_bigintToString]
    rw [writeInt64_leVal _ hl1 hb1, writeInt64_leVal _ hl2 hb2]
    rw [List.take_append_drop]

/-- Witness for C7 on the 16 bytes encoding begin `-1` and end `1`. -/
theorem ficFrameRange_serialize_parse_roundtrip_witness :
    ∃ fr r1,
      FICFrameRange.Parse
          ⟨[255, 255, 255, 255, 255, 255, 255, 255, 1, 0, 0, 0, 0, 0, 0, 0], 0⟩ = some (fr, r1)
        ∧ r1 = ⟨[255, 255, 255, 255, 255, 255, 255, 255, 1, 0, 0, 0, 0, 0, 0, 0], 16⟩
        ∧ fr.rangeBegin = bigintToString (toSigned64 (leVal
            ([255, 255, 255, 255, 255, 255, 255, 255, 1, 0, 0, 0, 0, 0, 0, 0].take 8)))
        ∧ fr.rangeEnd = bigintToString (toSigned64 (leVal
            ([255, 255, 255, 255, 255, 255, 255, 255, 1, 0, 0, 0, 0, 0, 0, 0].drop 8)))
        ∧ FICFrameRange.Serialize fr
            = some [255, 255, 255, 255, 255, 255, 255, 255, 1, 0, 0, 0, 0, 0, 0, 0] :=
  ficFrameRange_serialize_parse_roundtrip
    [255, 255, 255, 255, 255, 255, 255, 255, 1, 0, 0, 0, 0, 0, 0, 0] (by decide) (by decide)

/-- C8: `vec2.Parse` consumes exactly 16 bytes (two little-endian 8-byte
doubles, `x` then `y`) and `vec2.ParseF` consumes exactly 8 bytes (two 4-byte
floats, `x` then `y`); `vec2.Serialize` and `vec2.SerializeF` write the same
fields in the same order and widths, so each flavor's serializer reproduces
the bytes its parser consumed. -/
theorem vec2_parse_serialize_flavors (bs : Bytes) (hlen : 16 ≤ bs.length)
    (hb : ∀ b ∈ bs, b < 256) :
    ∃ v w r16 r8,
      vec2.Parse ⟨bs, 0⟩ = some (v, r16) ∧ r16 = ⟨bs, 16⟩
        ∧ v.x = leVal (bs.take 8) ∧ v.y = leVal ((bs.drop 8).take 8)
        ∧ vec2.Serialize v = bs.take 16
        ∧ vec2.ParseF ⟨bs, 0⟩ = some (w, r8) ∧ r8 = ⟨bs, 8⟩
        ∧ w.x = leVal (bs.take 4) ∧ w.y = leVal ((bs.drop 4).take 4)
        ∧ vec2.SerializeF w = bs.take 8 := by
  have hb1 : ∀ b ∈ bs.take 8, b < 256 := fun b h => hb b ((List.take_sublist 8 bs).subset h)
  have hb2 : ∀ b ∈ (bs.drop 8).take 8, b < 256 :=
    fun b h => hb b ((List.drop_sublist 8 bs).subset ((List.take_sublist 8 _).subset h))
  have hb3 : ∀ b ∈ bs.take 4, b < 256 := fun b h => hb b ((List.take_sublist 4 bs).subset h)
  have hb4 : ∀ b ∈ (bs.drop 4).take 4, b < 256 :=
    fun b h => hb b ((List.drop_sublist 4 bs).subset ((List.take_sublist 4 _).subset h))
  have hl1 : (bs.take 8).length = 8 := by rw [List.length_take]; omega
  have hl2 : ((bs.drop 8).take 8).length = 8 := by
    rw [List.length_take, List.length_drop]; omega
  have hl3 : (bs.take 4).length = 4 := by rw [List.length_take]; omega
  have hl4 : ((bs.drop 4).take 4).length = 4 := by
    rw [List.length_take, List.length_drop]; omega
  have e1 : Reader.readN ⟨bs, 0⟩ 8 = some (bs.take 8, ⟨bs, 8⟩) := by
    have := readN_at bs 0 8 (by omega)
    simpa using this
  have e2 : Reader.readN ⟨bs, 8⟩ 8 = some ((bs.drop 8).take 8, ⟨bs, 16⟩) := by
    have := readN_at bs 8 8 (by omega)
    simpa using this
  have e3 : Reader.readN ⟨bs, 0⟩ 4 = some (bs.take 4, ⟨bs, 4⟩) := by
    have := readN_at bs 0 4 (by omega)
    simpa using this
  have e4 : Reader.readN ⟨bs, 4⟩ 4 = some ((bs.drop 4).take 4, ⟨bs, 8⟩) := by
    have := readN_at bs 4 4 (by omega)
    simpa using this
  refine ⟨⟨leVal (bs.take 8), leVal ((bs.drop 8).take 8)⟩,
    ⟨leVal (bs.take 4), leVal ((bs.drop 4).take 4)⟩, ⟨bs, 16⟩, ⟨bs, 8⟩,
    ?_, rfl, rfl, rfl, ?_, ?_, rfl, rfl, rfl, ?_⟩
  · simp [vec2.Parse, readDouble, e1, e2]
  · show writeDouble (leVal (bs.take 8)) ++ writeDouble (leVal ((bs.drop 8).take 8)) = bs.take 16
    rw [writeDouble, writeDouble, leBytes_leVal_of_length _ 8 hl1 hb1,
      leBytes_leVal_of_length _ 8 hl2 hb2, ← List.take_add]
  · simp [vec2.ParseF, readFloat32, e3, e4]
  · show writeFloat32 (leVal (bs.take 4)) ++ writeFloat32 (leVal ((bs.drop 4).take 4)) = bs.take 8
    rw [writeFloat32, writeFloat32, leBytes_leVal_of_length _ 4 hl3 hb3,
      leBytes_leVal_of_length _ 4 hl4 hb4, ← List.take_add]

/-- Witness for C8 on 16 concrete bytes. -/
theorem vec2_parse_serialize_flavors_witness :
    ∃ v w r16 r8,
      vec2.Parse ⟨[0, 1, 2, 3, 4, 5, 6, 7, 8, 9, 10, 11, 12, 13, 14, 15], 0⟩ = some (v, r16)
        ∧ r16 = ⟨[0, 1, 2, 3, 4, 5, 6, 7, 8, 9, 10, 11, 12, 13, 14, 15], 16⟩
        ∧ v.x = leVal ([0, 1, 2, 3, 4, 5, 6, 7, 8, 9, 10, 11, 12, 13, 14, 15].take 8)
        ∧ v.y = leVal (([0, 1, 2, 3, 4, 5, 6, 7, 8, 9, 10, 11, 12, 13, 14, 15].drop 8).take 8)
        ∧ vec2.Serialize v = [0, 1, 2, 3, 4, 5, 6, 7, 8, 9, 10, 11, 12, 13, 14, 15].take 16
        ∧ vec2.ParseF ⟨[0, 1, 2, 3, 4, 5, 6, 7, 8, 9, 10, 11, 12, 13, 14, 15], 0⟩ = some (w, r8)
        ∧ r8 = ⟨[0, 1, 2, 3, 4, 5, 6, 7, 8, 9, 10, 11, 12, 13, 14, 15], 8⟩
        ∧ w.x = leVal ([0, 1, 2, 3, 4, 5, 6, 7, 8, 9, 10, 11, 12, 13, 14, 15].take 4)
        ∧ w.y = leVal (([0, 1, 2, 3, 4, 5, 6, 7, 8, 9, 10, 11, 12, 13, 14, 15].drop 4).take 4)
        ∧ vec2.SerializeF w = [0, 1, 2, 3, 4, 5, 6, 7, 8, 9, 10, 11, 12, 13, 14, 15].take 8 :=
  vec2_parse_serialize_flavors [0, 1, 2, 3, 4, 5, 6, 7, 8, 9, 10, 11, 12, 13, 14, 15]
    (by decide) (by decide)

/-- C9: every 4-byte IEEE-754 bit pattern — negative zero and all NaN payloads
included — survives a float read/write round trip byte-for-byte, and the bit
patterns read from positive zero bytes and negative zero bytes differ. -/
theorem float32_bit_exact_roundtrip (bs : Bytes) (hlen : bs.length = 4)
    (hb : ∀ b ∈ bs, b < 256) :
    (∃ v, readFloat32 ⟨bs, 0⟩ = some (v, ⟨bs, 4⟩) ∧ writeFloat32 v = bs)
      ∧ (∃ vz vnz, readFloat32 ⟨[0, 0, 0, 0], 0⟩ = some (vz, ⟨[0, 0, 0, 0], 4⟩)
          ∧ readFloat32 ⟨[0, 0, 0, 128], 0⟩ = some (vnz, ⟨[0, 0, 0, 128], 4⟩)
          ∧ vz ≠ vnz) := by
  constructor
  · have htk : bs.take 4 = bs := List.take_of_length_le (by omega)
    have e1 : Reader.readN ⟨bs, 0⟩ 4 = some (bs, ⟨bs, 4⟩) := by
      have h := readN_at bs 0 4 (by omega)
      simpa [htk] using h
    refine ⟨leVal bs, ?_, ?_⟩
    · simp [readFloat32, e1]
    · rw [writeFloat32, leBytes_leVal_of_length _ 4 hlen hb]
  · exact ⟨0, 2147483648, by decide, by decide, by decide⟩

/-- Witness for C9 on a NaN bit pattern (payload bit set: `0x7FC00001`). -/
theorem float32_bit_exact_roundtrip_witness :
    (∃ v, readFloat32 ⟨[1, 0, 192, 127], 0⟩ = some (v, ⟨[1, 0, 192, 127], 4⟩)
        ∧ writeFloat32 v = [1, 0, 192, 127])
      ∧ (∃ vz vnz, readFloat32 ⟨[0, 0, 0, 0], 0⟩ = some (vz, ⟨[0, 0, 0, 0], 4⟩)
          ∧ readFloat32 ⟨[0, 0, 0, 128], 0⟩ = some (vnz, ⟨[0, 0, 0, 128], 4⟩)
          ∧ vz ≠ vnz) :=
  float32_bit_exact_roundtrip [1, 0, 192, 127] (by decide) (by decide)

/-- C2 counterexample: a header classified `<U6` is rejected through
`UnsupportedVersionError`, but its message — `Game Version < U6 is not
supported.` — names no package version at all: it contains no dotted-version
fragment, in particular neither `0.0.34` nor `0.3.7`.  The claim that each of
the three rejected classes gets a message naming the last supporting package
version therefore fails for the `<U6` class. -/
theorem unsupportedVersion_ltU6_names_no_version :
    (Parser.ParseSave trivComponents "save" [5, 0, 0] ⟨false, false⟩).2
        = .error (.unsupportedVersion msgLtU6)
      ∧ trivComponents.getRoughSaveVersion 5 0 = .ltU6
      ∧ hasVersionPattern msgLtU6.data = false
      ∧ strContains msgLtU6 "0.0.34" = false
      ∧ strContains msgLtU6 "0.3.7" = false := by
  refine ⟨rfl, rfl, by decide, by decide, by decide⟩

/-- C2 amended: whenever the header read succeeds and the rough version
classifies as `<U6`, `U6/U7` or `U8`, `Parser.ParseSave` fails with the
source's `UnsupportedVersionError` for that class and returns no save; the
`U6/U7` message names package version `0.0.34` and the `U8` message names
`0.3.7`, while the `<U6` message names no package version. -/
theorem parseSave_version_rejection {G L : Type} (c : SaveComponents G L) (name : String)
    (bytes : Bytes) (opts : ParseOptions) (h : SaveHeader) (rest : Bytes)
    (hread : c.readHeader bytes = some (h, rest)) :
    (c.getRoughSaveVersion h.saveVersion h.saveHeaderType = RoughSaveVersion.ltU6 →
        (Parser.ParseSave c name bytes opts).2 = .error (.unsupportedVersion msgLtU6))
      ∧ (c.getRoughSaveVersion h.saveVersion h.saveHeaderType = RoughSaveVersion.u6u7 →
        (Parser.ParseSave c name bytes opts).2 = .error (.unsupportedVersion msgU6U7))
      ∧ (c.getRoughSaveVersion h.saveVersion h.saveHeaderType = RoughSaveVersion.u8 →
        (Parser.ParseSave c name bytes opts).2 = .error (.unsupportedVersion msgU8))
      ∧ strContains msgU6U7 "0.0.34" = true
      ∧ strContains msgU8 "0.3.7" = true
      ∧ hasVersionPattern msgLtU6.data = false := by
  refine ⟨?_, ?_, ?_, by decide, by decide, by decide⟩ <;>
    (intro hc; simp [Parser.ParseSave, hread, hc])

/-- Witness for C2 (amended) on a demo header classified `U6/U7`. -/
theorem parseSave_version_rejection_witness :
    (trivComponents.getRoughSaveVersion (7 : Int) (0 : Int) = RoughSaveVersion.ltU6 →
        (Parser.ParseSave trivComponents "save" [7, 0, 0] ⟨false, false⟩).2
          = .error (.unsupportedVersion msgLtU6))
      ∧ (trivComponents.getRoughSaveVersion (7 : Int) (0 : Int) = RoughSaveVersion.u6u7 →
        (Parser.ParseSave trivComponents "save" [7, 0, 0] ⟨false, false⟩).2
          = .error (.unsupportedVersion msgU6U7))
      ∧ (trivComponents.getRoughSaveVersion (7 : Int) (0 : Int) = RoughSaveVersion.u8 →
        (Parser.ParseSave trivComponents "save" [7, 0, 0] ⟨false, false⟩).2
          = .error (.unsupportedVersion msgU8))
      ∧ strContains msgU6U7 "0.0.34" = true
      ∧ strContains msgU8 "0.3.7" = true
      ∧ hasVersionPattern msgLtU6.data = false :=
  parseSave_version_rejection trivComponents "save" [7, 0, 0] ⟨false, false⟩
    ⟨7, 0, 0⟩ [] rfl

lemma readSaveBodyHash_inv (bs hsh rest : Bytes) (h : readSaveBodyHash bs = some (hsh, rest)) :
    32 ≤ bs.length ∧ hsh = bs.take 32 ∧ rest = bs.drop 32 := by
  unfold readSaveBodyHash at h
  by_cases hc : 32 ≤ bs.length
  · rw [if_pos hc] at h
    simp only [Option.some.injEq, Prod.mk.injEq] at h
    exact ⟨hc, h.1.symm, h.2.symm⟩
  · rw [if_neg hc] at h
    exact absurd h (by simp)

/-- Predicate matching the decompressed-body callback event. -/
def isBodyCallback {G L : Type} : ParseEvent G L → Bool
  | ParseEvent.bodyCallback _ => true
  | _ => false

/-- C6: every accepted input passes through header read, version check,
chunk inflation, the optional body callback (fired exactly once, if and only
if one was provided, on the inflated body), the 32-byte body hash, the grids
and the levels — in exactly this order — and the returned save holds the
header, compression info, hash, grids and levels these steps produced. -/
theorem parseSave_sequence {G L : Type} (c : SaveComponents G L) (name : String) (bytes : Bytes)
    (opts : ParseOptions) (evs : List (ParseEvent G L)) (save : SatisfactorySave G L)
    (hok : Parser.ParseSave c name bytes opts = (evs, .ok save)) :
    ∃ h rest1 ci body g rest2 l rest3,
      c.readHeader bytes = some (h, rest1)
        ∧ c.getRoughSaveVersion h.saveVersion h.saveHeaderType = RoughSaveVersion.current
        ∧ c.inflateChunks rest1 = some (ci, body)
        ∧ 32 ≤ body.length
        ∧ c.readGrids (body.drop 32) = some (g, rest2)
        ∧ c.readLevels rest2 h = some (l, rest3)
        ∧ evs = [ParseEvent.headerRead h, ParseEvent.versionChecked RoughSaveVersion.current,
              ParseEvent.chunksInflated ci body]
            ++ (if opts.onDecompressedSaveBody then [ParseEvent.bodyCallback body] else [])
            ++ [ParseEvent.hashRead (body.take 32), ParseEvent.gridsRead g,
              ParseEvent.levelsRead l]
        ∧ save = ⟨name, h, some ci, body.take 32, g, l⟩
        ∧ (body.take 32).length = 32
        ∧ evs.countP isBodyCallback = (if opts.onDecompressedSaveBody then 1 else 0) := by
  cases h1 : c.readHeader bytes with
  | none => simp [Parser.ParseSave, h1] at hok
  | some pr =>
    obtain ⟨h, rest1⟩ := pr
    cases h2 : c.getRoughSaveVersion h.saveVersion h.saveHeaderType with
    | ltU6 => simp [Parser.ParseSave, h1, h2] at hok
    | u6u7 => simp [Parser.ParseSave, h1, h2] at hok
    | u8 => simp [Parser.ParseSave, h1, h2] at hok
    | current =>
      cases h3 : c.inflateChunks rest1 with
      | none => simp [Parser.ParseSave, h1, h2, h3] at hok
      | some pr2 =>
        obtain ⟨ci, body⟩ := pr2
        cases h4 : readSaveBodyHash body with
        | none => simp [Parser.ParseSave, h1, h2, h3, h4] at hok
        | some pr3 =>
          obtain ⟨hsh, afterHash⟩ := pr3
          obtain ⟨hblen, hhsh, hafter⟩ := readSaveBodyHash_inv body hsh afterHash h4
          subst hhsh
          subst hafter
          cases h5 : c.readGrids (body.drop 32) with
          | none => simp [Parser.ParseSave, h1, h2, h3, h4, h5] at hok
          | some pr4 =>
            obtain ⟨g, rest2⟩ := pr4
            cases h6 : c.readLevels rest2 h with
            | none => simp [Parser.ParseSave, h1, h2, h3, h4, h5, h6] at hok
            | some pr5 =>
              obtain ⟨l, rest3⟩ := pr5
              simp only [Parser.ParseSave, h1, h2, h3, h4, h5, h6] at hok
              rw [Prod.ext_iff] at hok
              simp only [Except.ok.injEq] at hok
              obtain ⟨hevs, hsave⟩ := hok
              refine ⟨h, rest1, ci, body, g, rest2, l, rest3, rfl, h2, h3, hblen, h5, h6,
                ?_, hsave.symm, ?_, ?_⟩
              · rw [← hevs]
                cases hcb : opts.onDecompressedSaveBody <;> simp [hcb]
              · rw [List.length_take]
                omega
              · rw [← hevs]
                cases hcb : opts.onDecompressedSaveBody <;>
                  simp [hcb, List.countP_cons, isBodyCallback]

/-- Witness for C6 on the demo save with the body callback provided. -/
theorem parseSave_sequence_witness :
    ∃ h rest1 ci body g rest2 l rest3,
      trivComponents.readHeader demoBytes = some (h, rest1)
        ∧ trivComponents.getRoughSaveVersion h.saveVersion h.saveHeaderType
            = RoughSaveVersion.current
        ∧ trivComponents.inflateChunks rest1 = some (ci, body)
        ∧ 32 ≤ body.length
        ∧ trivComponents.readGrids (body.drop 32) = some (g, rest2)
        ∧ trivComponents.readLevels rest2 h = some (l, rest3)
        ∧ [ParseEvent.headerRead ⟨10, 3, 7⟩, ParseEvent.versionChecked RoughSaveVersion.current,
              ParseEvent.chunksInflated ⟨3, 131072⟩ demoBody, ParseEvent.bodyCallback demoBody,
              ParseEvent.hashRead (demoBody.take 32), ParseEvent.gridsRead [1, 2],
              ParseEvent.levelsRead [5, 6, 7]]
            = [ParseEvent.headerRead h, ParseEvent.versionChecked RoughSaveVersion.current,
                ParseEvent.chunksInflated ci body]
              ++ (if (⟨true, false⟩ : ParseOptions).onDecompressedSaveBody
                  then [ParseEvent.bodyCallback body] else [])
              ++ [ParseEvent.hashRead (body.take 32), ParseEvent.gridsRead g,
                ParseEvent.levelsRead l]
        ∧ (⟨"demo", ⟨10, 3, 7⟩, some ⟨3, 131072⟩, demoBody.take 32, [1, 2], [5, 6, 7]⟩
              : SatisfactorySave Bytes Bytes)
            = ⟨"demo", h, some ci, body.take 32, g, l⟩
        ∧ (body.take 32).length = 32
        ∧ ([ParseEvent.headerRead ⟨10, 3, 7⟩, ParseEvent.versionChecked RoughSaveVersion.current,
              ParseEvent.chunksInflated ⟨3, 131072⟩ demoBody, ParseEvent.bodyCallback demoBody,
              ParseEvent.hashRead (demoBody.take 32), ParseEvent.gridsRead [1, 2],
              ParseEvent.levelsRead ([5, 6, 7] : Bytes)]).countP isBodyCallback
            = (if (⟨true, false⟩ : ParseOptions).onDecompressedSaveBody then 1 else 0) :=
  parseSave_sequence trivComponents "demo" demoBytes ⟨true, false⟩
    [ParseEvent.headerRead ⟨10, 3, 7⟩, ParseEvent.versionChecked RoughSaveVersion.current,
      ParseEvent.chunksInflated ⟨3, 131072⟩ demoBody, ParseEvent.bodyCallback demoBody,
      ParseEvent.hashRead (demoBody.take 32), ParseEvent.gridsRead [1, 2],
      ParseEvent.levelsRead [5, 6, 7]]
    ⟨"demo", ⟨10, 3, 7⟩, some ⟨3, 131072⟩, demoBody.take 32, [1, 2], [5, 6, 7]⟩ rfl

lemma readSaveBodyHash_of_le (bs : Bytes) (h : 32 ≤ bs.length) :
    readSaveBodyHash bs = some (bs.take 32, bs.drop 32) := by
  simp [readSaveBodyHash, h]

/-- C1: facade round trip.  The component contracts state that each collaborator
writer reproduces exactly the bytes its reader consumed (for the chunk codec:
deflating the inflated body with the captured compression info reproduces the
chunk stream); the remaining hypotheses say the input is legal — every decode
step succeeds and the level read consumes the body to its end.  Under these,
`Parser.ParseSave` returns the decoded save and `Parser.WriteSave` on that
save emits exactly the input bytes: the uncompressed header followed by the
chunked compressed body. -/
theorem parseSave_writeSave_roundtrip {G L : Type} (c : SaveComponents G L) (name : String)
    (bytes : Bytes) (opts : ParseOptions)
    (Hheader : ∀ bs h rest, c.readHeader bs = some (h, rest) → c.writeHeader h ++ rest = bs)
    (Hchunks : ∀ bs ci body, c.inflateChunks bs = some (ci, body) →
      (c.deflateChunks ci body).flatten = bs)
    (Hgrids : ∀ bs g rest, c.readGrids bs = some (g, rest) → c.writeGrids g ++ rest = bs)
    (Hlevels : ∀ bs h l rest, c.readLevels bs h = some (l, rest) →
      c.writeLevels l h.buildVersion ++ rest = bs)
    (h : SaveHeader) (rest1 : Bytes) (ci : CompressionInfo) (body : Bytes) (g : G)
    (rest2 : Bytes) (l : L)
    (e1 : c.readHeader bytes = some (h, rest1))
    (e2 : c.getRoughSaveVersion h.saveVersion h.saveHeaderType = RoughSaveVersion.current)
    (e3 : c.inflateChunks rest1 = some (ci, body))
    (e4 : 32 ≤ body.length)
    (e5 : c.readGrids (body.drop 32) = some (g, rest2))
    (e6 : c.readLevels rest2 h = some (l, [])) :
    (Parser.ParseSave c name bytes opts).2
        = .ok ⟨name, h, some ci, body.take 32, g, l⟩
      ∧ Parser.WriteSave c ⟨name, h, some ci, body.take 32, g, l⟩
        = some (bytes, (c.deflateChunks ci body).map List.length) := by
  have hhash := readSaveBodyHash_of_le body e4
  constructor
  · simp [Parser.ParseSave, e1, e2, e3, hhash, e5, e6]
  · have hwh : c.writeHeader h ++ rest1 = bytes := Hheader _ _ _ e1
    have hwg : c.writeGrids g ++ rest2 = body.drop 32 := Hgrids _ _ _ e5
    have hwl : c.writeLevels l h.buildVersion = rest2 := by
      have hw := Hlevels _ _ _ _ e6
      rw [List.append_nil] at hw
      exact hw
    have hbuf : writeSaveBodyHash (body.take 32) ++ c.writeGrids g
        ++ c.writeLevels l h.buildVersion = body := by
      rw [writeSaveBodyHash, List.append_assoc, hwl, hwg, List.take_append_drop]
    simp only [Parser.WriteSave, Option.some.injEq]
    rw [List.append_assoc, List.append_assoc, ← List.append_assoc (writeSaveBodyHash _), hbuf]
    rw [List.take_left, List.drop_left]
    rw [Hchunks _ _ _ e3, hwh]

lemma trivComponents_header_contract (bs : Bytes) (h : SaveHeader) (rest : Bytes)
    (hr : trivComponents.readHeader bs = some (h, rest)) :
    trivComponents.writeHeader h ++ rest = bs := by
  match bs with
  | [] => simp [trivComponents] at hr
  | [a] => simp [trivComponents] at hr
  | [a, b] => simp [trivComponents] at hr
  | a :: b :: c :: tl =>
    simp only [trivComponents, Option.some.injEq, Prod.mk.injEq] at hr
    obtain ⟨hh, ht⟩ := hr
    subst ht
    rw [← hh]
    simp [trivComponents]

lemma trivComponents_chunks_contract (bs : Bytes) (ci : CompressionInfo) (body : Bytes)
    (hr : trivComponents.inflateChunks bs = some (ci, body)) :
    (trivComponents.deflateChunks ci body).flatten = bs := by
  simp only [trivComponents, Option.some.injEq, Prod.mk.injEq] at hr
  obtain ⟨_, hb⟩ := hr
  subst hb
  simp [trivComponents]

lemma trivComponents_grids_contract (bs : Bytes) (g : Bytes) (rest : Bytes)
    (hr : trivComponents.readGrids bs = some (g, rest)) :
    trivComponents.writeGrids g ++ rest = bs := by
  simp only [trivComponents] at hr ⊢
  by_cases hc : 2 ≤ bs.length
  · rw [if_pos hc] at hr
    simp only [Option.some.injEq, Prod.mk.injEq] at hr
    obtain ⟨hg, ht⟩ := hr
    subst hg
    subst ht
    exact List.take_append_drop 2 bs
  · rw [if_neg hc] at hr
    exact absurd hr (by simp)

lemma trivComponents_levels_contract (bs : Bytes) (h : SaveHeader) (l : Bytes) (rest : Bytes)
    (hr : trivComponents.readLevels bs h = some (l, rest)) :
    trivComponents.writeLevels l h.buildVersion ++ rest = bs := by
  simp only [trivComponents, Option.some.injEq, Prod.mk.injEq] at hr
  obtain ⟨hl, ht⟩ := hr
  subst hl
  subst ht
  simp [trivComponents]

/-- Witness for C1 on the demo save bytes. -/
theorem parseSave_writeSave_roundtrip_witness :
    (Parser.ParseSave trivComponents "demo" demoBytes ⟨true, false⟩).2
        = .ok ⟨"demo", ⟨10, 3, 7⟩, some ⟨3, 131072⟩, demoBody.take 32, [1, 2], [5, 6, 7]⟩
      ∧ Parser.WriteSave trivComponents
          ⟨"demo", ⟨10, 3, 7⟩, some ⟨3, 131072⟩, demoBody.take 32, [1, 2], [5, 6, 7]⟩
        = some (demoBytes,
            (trivComponents.deflateChunks ⟨3, 131072⟩ demoBody).map List.length) :=
  parseSave_writeSave_roundtrip trivComponents "demo" demoBytes ⟨true, false⟩
    (fun bs h rest => trivComponents_header_contract bs h rest)
    (fun bs ci body => trivComponents_chunks_contract bs ci body)
    (fun bs g rest => trivComponents_grids_contract bs g rest)
    (fun bs h l rest => trivComponents_levels_contract bs h l rest)
    ⟨10, 3, 7⟩ demoBody ⟨3, 131072⟩ demoBody [1, 2] [5, 6, 7] [5, 6, 7]
    rfl rfl rfl (by decide) (by decide) (by decide)

end SatisfactoryParser
